import Mathlib

/-!
Shallow embedding of the BMP filter program (`filter_H1.cpp`) and
verification of its specification claims.

The in-memory pixel grid `ImageDetails` (width, height, `Pixeldata**`) is
modelled as a structure holding a list of rows of pixels; byte channels are
modelled as `Nat` with explicit `% 256` / clamping where the C++ 8-bit
arithmetic matters.  Loops that write every pixel of the grid are modelled
by rebuilding the grid from an index function (`buildPixels`), which is the
functional meaning of `for y ... for x ... image.pixels[y][x] = f(y,x)`;
filters that read from a snapshot copy of the grid (`copy_pixels`) read
from the input image value, exactly as the C++ reads `original_pixels`.
-/

namespace FilterProg

/-- `struct Pixeldata { BYTE B; BYTE G; BYTE R; }` — one BGR pixel.
Channels are `Nat`s; genuine pixel data satisfies `≤ 255`. -/
structure Pixeldata where
  B : Nat
  G : Nat
  R : Nat
deriving DecidableEq

instance : Inhabited Pixeldata := ⟨⟨0, 0, 0⟩⟩

/-- `struct ImageDetails { int width; int height; Pixeldata** pixels; }`. -/
structure ImageDetails where
  width : Nat
  height : Nat
  pixels : List (List Pixeldata)
deriving DecidableEq

/-- Read `pixels[y][x]` (out-of-range reads return the default pixel; the
C++ code only ever indexes in bounds). -/
def getP (px : List (List Pixeldata)) (y x : Nat) : Pixeldata :=
  (px.getD y []).getD x default

/-- Read `image.pixels[y][x]`. -/
def getPixel (img : ImageDetails) (y x : Nat) : Pixeldata :=
  getP img.pixels y x

/-- The data-model invariant: the pixel array really is `height` rows of
`width` columns. -/
def validImage (img : ImageDetails) : Prop :=
  img.pixels.length = img.height ∧ ∀ row ∈ img.pixels, row.length = img.width

instance (img : ImageDetails) : Decidable (validImage img) := by
  unfold validImage; infer_instance

/-- Functional meaning of a double loop `for y in [0,h) for x in [0,w)`
writing pixel `(y,x)` as `f y x`. -/
def buildPixels (h w : Nat) (f : Nat → Nat → Pixeldata) : List (List Pixeldata) :=
  (List.range h).map fun y => (List.range w).map fun x => f y x

/-- An `h × w` image all of whose pixels are `p`. -/
def uniformImage (h w : Nat) (p : Pixeldata) : ImageDetails :=
  ⟨w, h, buildPixels h w fun _ _ => p⟩

/-! ### Basic lemmas about the grid representation -/

theorem getD_range_map {α : Type} [Inhabited α] (n i : Nat) (f : Nat → α) (hi : i < n) :
    ((List.range n).map f).getD i default = f i := by
  rw [List.getD_eq_getElem?_getD]
  simp [List.getElem?_map, List.getElem?_range, hi]

theorem getP_build (h w : Nat) (f : Nat → Nat → Pixeldata) (y x : Nat)
    (hy : y < h) (hx : x < w) : getP (buildPixels h w f) y x = f y x := by
  unfold getP buildPixels
  rw [show (((List.range h).map fun y => (List.range w).map fun x => f y x).getD y [] : List Pixeldata)
        = (List.range w).map (f y) from ?_]
  · exact getD_range_map w x (f y) hx
  · have := getD_range_map (α := List Pixeldata) h y
      (fun y => (List.range w).map fun x => f y x) hy
    simpa using this

theorem length_buildPixels (h w : Nat) (f : Nat → Nat → Pixeldata) :
    (buildPixels h w f).length = h := by
  simp [buildPixels]

theorem row_length_buildPixels (h w : Nat) (f : Nat → Nat → Pixeldata) :
    ∀ row ∈ buildPixels h w f, row.length = w := by
  intro row hrow
  simp only [buildPixels, List.mem_map] at hrow
  obtain ⟨y, _, rfl⟩ := hrow
  simp

/-- A valid image is recovered by rebuilding it from its own index
function. -/
theorem build_getPixel_eq (img : ImageDetails) (hv : validImage img) :
    buildPixels img.height img.width (fun y x => getPixel img y x) = img.pixels := by
  obtain ⟨hlen, hrow⟩ := hv
  apply List.ext_getElem
  · simp [length_buildPixels, hlen]
  · intro y h₁ h₂
    have hy : y < img.height := by simpa [length_buildPixels] using h₁
    have hyrow : (img.pixels[y]).length = img.width :=
      hrow _ (List.getElem_mem h₂)
    have hbrow : (buildPixels img.height img.width (fun y x => getPixel img y x))[y]
        = (List.range img.width).map fun x => getPixel img y x := by
      simp [buildPixels]
    rw [hbrow]
    apply List.ext_getElem
    · simpa using hyrow.symm
    · intro x hx₁ hx₂
      have hxw : x < img.width := by simpa using hx₁
      simp only [List.getElem_map, List.getElem_range]
      unfold getPixel getP
      rw [List.getD_eq_getElem?_getD (l := img.pixels), List.getElem?_eq_getElem h₂]
      simp [List.getD_eq_getElem?_getD, List.getElem?_eq_getElem hx₂]

/-! ### Noise-reduction strength normalization (`applyNoiseReduction`, lines 715–724)

```cpp
if (filter_strength % 2 != 0) { filter_strength++; filter_strength /= 2; }
int kernel_size = 3 + filter_strength;
int offset = kernel_size / 2;
```
-/

/-- The strength adjustment at the top of `applyNoiseReduction`: the branch
runs when `filter_strength % 2 != 0`, i.e. when the strength is odd. -/
def adjust_strength (s : Nat) : Nat :=
  if s % 2 ≠ 0 then (s + 1) / 2 else s

/-- `kernel_size = 3 + filter_strength` after adjustment. -/
def kernel_size (s : Nat) : Nat := 3 + adjust_strength s

/-- `offset = kernel_size / 2`. -/
def kernel_offset (s : Nat) : Nat := kernel_size s / 2

/-! ### Point filters (`applyGrayscale`, `applySepia`, `applyFlip`) -/

/-- `applyGrayscale`: every pixel is replaced by the truncating integer
average `(R + G + B) / 3` on all three channels. -/
def applyGrayscale (img : ImageDetails) : ImageDetails :=
  { img with
    pixels := buildPixels img.height img.width fun y x =>
      let p := getPixel img y x
      let avg := (p.R + p.G + p.B) / 3
      ⟨avg, avg, avg⟩ }

/-- One sepia channel: `min(255, round(R·cr + G·cg + B·cb))`.  The C++
computes the weighted sum in floating point and calls `round`; we use
exact rationals with the same decimal coefficients. -/
def sepiaChannel (r g b : Nat) (cr cg cb : ℚ) : Nat :=
  min 255 (round ((r : ℚ) * cr + (g : ℚ) * cg + (b : ℚ) * cb)).toNat

/-- `applySepia` (the strength parameter is accepted but unused, exactly as
in the source). -/
def applySepia (img : ImageDetails) (_filter_strength : Nat) : ImageDetails :=
  { img with
    pixels := buildPixels img.height img.width fun y x =>
      let p := getPixel img y x
      ⟨sepiaChannel p.R p.G p.B (272/1000) (534/1000) (131/1000),
       sepiaChannel p.R p.G p.B (349/1000) (686/1000) (168/1000),
       sepiaChannel p.R p.G p.B (393/1000) (769/1000) (189/1000)⟩ }

/-- `applyFlip`: the in-place swap loop (`x < width/2`, swapping `(y,x)`
with `(y, width-1-x)`) reverses each row; pointwise the result at `(y,x)`
is the input at `(y, width-1-x)`. -/
def applyFlip (img : ImageDetails) : ImageDetails :=
  { img with
    pixels := buildPixels img.height img.width fun y x =>
      getPixel img y (img.width - 1 - x) }

/-! ### Gaussian blur (`applyGaussianBlur`, lines 595–630)

The float kernel is `{1,2,1;2,4,2;1,2,1}/16`.  All weights are dyadic
rationals with denominator 16 and every partial sum of `weight·byte` terms
is a multiple of 1/16 below 2^24, hence exactly representable in `float`;
the final `static_cast<BYTE>(std::clamp(sum,0,255))` therefore computes
`min (Σ w·c / 16) 255` with truncating `Nat` division. -/

/-- The 3×3 binomial kernel, numerators over 16. -/
def GAUSSIAN_KERNEL_W : List (List Nat) := [[1, 2, 1], [2, 4, 2], [1, 2, 1]]

/-- `Σ_{ky,kx} kernel[ky][kx] · channel(pixels[y+ky-1][x+kx-1])` (the raw
16-times-scaled convolution sum of one channel at interior pixel `(y,x)`). -/
def convSum (px : List (List Pixeldata)) (y x : Nat) (f : Pixeldata → Nat) : Nat :=
  ((List.range 3).map fun ky =>
    ((List.range 3).map fun kx =>
      (GAUSSIAN_KERNEL_W.getD ky []).getD kx 0 * f (getP px (y + ky - 1) (x + kx - 1))).sum).sum

/-- The blurred pixel at interior position `(y,x)`. -/
def gaussPixel (px : List (List Pixeldata)) (y x : Nat) : Pixeldata :=
  ⟨min (convSum px y x (·.B) / 16) 255,
   min (convSum px y x (·.G) / 16) 255,
   min (convSum px y x (·.R) / 16) 255⟩

/-- `applyGaussianBlur`: interior pixels (`1 ≤ y < height-1`,
`1 ≤ x < width-1`) get the kernel average of the snapshot copy
(`original_pixels`); everything else keeps its old value. -/
def applyGaussianBlur (img : ImageDetails) : ImageDetails :=
  { img with
    pixels := buildPixels img.height img.width fun y x =>
      if 1 ≤ y ∧ y + 1 < img.height ∧ 1 ≤ x ∧ x + 1 < img.width then
        gaussPixel img.pixels y x
      else getPixel img y x }

/-! ### Grid arithmetic (`subtract_images`, `multiply_image`, `add_images`) -/

/-- `result = a - b` stored into a `BYTE`: the `int` difference is reduced
mod 256 (unsigned-byte wraparound, no clamping). -/
def byteSub (a b : Nat) : Nat := (((a : Int) - (b : Int)) % 256).toNat

/-- `subtract_images(a, b, result)`: per-channel wraparound subtraction
over `a`'s dimensions. -/
def subtract_images (a b : ImageDetails) : ImageDetails :=
  ⟨a.width, a.height,
   buildPixels a.height a.width fun y x =>
     let pa := getPixel a y x
     let pb := getPixel b y x
     ⟨byteSub pa.B pb.B, byteSub pa.G pb.G, byteSub pa.R pb.R⟩⟩

/-- `multiply_image`: `std::clamp(int(channel * scalar), 0, 255)`; the
scalar is the integer strength (the float product of a byte and an integer
up to 100 is exact), so this is `min (c·s) 255`. -/
def multiply_image (img : ImageDetails) (scalar : Nat) : ImageDetails :=
  { img with
    pixels := buildPixels img.height img.width fun y x =>
      let p := getPixel img y x
      ⟨min (p.B * scalar) 255, min (p.G * scalar) 255, min (p.R * scalar) 255⟩ }

/-- `add_images(a, b, result)`: per-channel `std::clamp(a + b, 0, 255)`. -/
def add_images (a b : ImageDetails) : ImageDetails :=
  ⟨a.width, a.height,
   buildPixels a.height a.width fun y x =>
     let pa := getPixel a y x
     let pb := getPixel b y x
     ⟨min (pa.B + pb.B) 255, min (pa.G + pb.G) 255, min (pa.R + pb.R) 255⟩⟩

/-- `applySharpen`: blur a deep copy once, mask = image − blurred
(wraparound), mask ×= strength (clamped), image = clamp(image + mask), then
a final clamp loop (`std::clamp(int(BYTE),0,255)`, identity on bytes). -/
def applySharpen (img : ImageDetails) (filter_strength : Nat) : ImageDetails :=
  let blured_image := applyGaussianBlur img
  let sharpend_mask := subtract_images img blured_image
  let scaled_mask := multiply_image sharpend_mask filter_strength
  let added := add_images img scaled_mask
  { added with
    pixels := buildPixels added.height added.width fun y x =>
      let p := getPixel added y x
      ⟨min p.B 255, min p.G 255, min p.R 255⟩ }

/-! ### Edge detection (`applyEdgeDetection`, lines 664–712) -/

/-- Sobel horizontal kernel `Gx`. -/
def SOBEL_GX : List (List Int) := [[-1, 0, 1], [-2, 0, 2], [-1, 0, 1]]

/-- Sobel vertical kernel `Gy`. -/
def SOBEL_GY : List (List Int) := [[1, 2, 1], [0, 0, 0], [-1, -2, -1]]

/-- `round(sqrt(n))` on a nonnegative integer: the correctly rounded
`double` square root rounded to the nearest integer (ties impossible). -/
def roundSqrt (n : Nat) : Nat :=
  let s := Nat.sqrt n
  if n ≤ s * s + s then s else s + 1

/-- One Sobel component `Σ intensity·K[ky][kx]` at interior `(y,x)`,
reading the `R` channel of the grayscaled snapshot. -/
def sobelSum (px : List (List Pixeldata)) (y x : Nat) (K : List (List Int)) : Int :=
  ((List.range 3).map fun ky =>
    ((List.range 3).map fun kx =>
      ((getP px (y + ky - 1) (x + kx - 1)).R : Int) * (K.getD ky []).getD kx 0).sum).sum

/-- `applyEdgeDetection`: grayscale a snapshot copy, then for interior
pixels write `min(round(sqrt(gx²+gy²)), 255)` to all channels; the border
ring keeps the original (colored) pixels. -/
def applyEdgeDetection (img : ImageDetails) : ImageDetails :=
  let temp_image := applyGrayscale img
  { img with
    pixels := buildPixels img.height img.width fun y x =>
      if 1 ≤ y ∧ y + 1 < img.height ∧ 1 ≤ x ∧ x + 1 < img.width then
        let gx := sobelSum temp_image.pixels y x SOBEL_GX
        let gy := sobelSum temp_image.pixels y x SOBEL_GY
        let magnitude := min (roundSqrt (gx * gx + gy * gy).toNat) 255
        ⟨magnitude, magnitude, magnitude⟩
      else getPixel img y x }

/-! ### Median noise reduction (`applyNoiseReduction`, lines 715–781)

The collection loops run `ky, kx` from `-offset` to `offset`, i.e. over a
`(2·offset+1)²` window, keeping only in-bounds samples in collection
order.  (The C++ stack buffers are declared with `kernel_size²` entries,
which is smaller than the window whenever `kernel_size` is even; the
embedding models the collected sample list itself.)  The sample lists are
sorted ascending (`ascending_sort` is an exchange sort; on `Nat` values
any comparison sort produces the same sorted list) and the entry at
`index/2` — `count/2`, the upper median — is selected. -/

/-- In-bounds window samples around `(y,x)` with the given offset, in the
C++ collection order. -/
def medianSamples (px : List (List Pixeldata)) (h w y x off : Nat) : List Pixeldata :=
  ((List.range (2 * off + 1)).map fun ky =>
    (List.range (2 * off + 1)).filterMap fun kx =>
      if off ≤ y + ky ∧ y + ky - off < h ∧ off ≤ x + kx ∧ x + kx - off < w then
        some (getP px (y + ky - off) (x + kx - off))
      else none).flatten

/-- `applyNoiseReduction` as the collection loops write it: per pixel,
sort each channel's window samples and take the element at `count/2`;
pixels with no samples keep their old value.

CAUTION: this is the idealized behavior only — the C++ stores the samples
in stack buffers `BYTE Red[kernel_size * kernel_size]` (likewise `Green`,
`Blue`), and the loops can collect up to `(2·offset+1)²` samples, which
exceeds the buffers whenever `kernel_size` is even (strength ≡ 1 mod 4).
Whenever a pixel collects more than `kernel_size²` samples the program
performs out-of-bounds writes (undefined behavior), so this total
function is faithful only in the absence of that overflow; the bound is
checked by `applyNoiseReductionChecked` below. -/
def applyNoiseReduction (img : ImageDetails) (filter_strength : Nat) : ImageDetails :=
  let off := kernel_offset filter_strength
  { img with
    pixels := buildPixels img.height img.width fun y x =>
      let samples := medianSamples img.pixels img.height img.width y x off
      if 0 < samples.length then
        ⟨(List.insertionSort (· ≤ ·) (samples.map (·.B))).getD (samples.length / 2) 0,
         (List.insertionSort (· ≤ ·) (samples.map (·.G))).getD (samples.length / 2) 0,
         (List.insertionSort (· ≤ ·) (samples.map (·.R))).getD (samples.length / 2) 0⟩
      else getPixel img y x }

/-- The failure mode of the C++ noise reduction: writing past the end of
the `kernel_size²`-byte sample buffers. -/
inductive NoiseError
  | bufferOverflow
deriving DecidableEq

/-- True when some pixel's window collects more than
`kernel_size · kernel_size` in-bounds samples, i.e. when the C++ writes
`Red[index]` (and `Green`, `Blue`) with `index ≥ kernel_size²` — an
out-of-bounds write on the stack buffers. -/
def noise_buffer_overflow (img : ImageDetails) (filter_strength : Nat) : Bool :=
  (List.range img.height).any fun y =>
    (List.range img.width).any fun x =>
      kernel_size filter_strength * kernel_size filter_strength <
        (medianSamples img.pixels img.height img.width y x
          (kernel_offset filter_strength)).length

/-- `applyNoiseReduction` with the C++ stack-buffer capacity made
explicit: if any pixel overflows the `kernel_size²`-entry buffers the run
is undefined behavior (modelled as an error); otherwise every sample fits
and the collected-sample model above is exact. -/
def applyNoiseReductionChecked (img : ImageDetails) (filter_strength : Nat) :
    Except NoiseError ImageDetails :=
  if noise_buffer_overflow img filter_strength then
    .error .bufferOverflow
  else
    .ok (applyNoiseReduction img filter_strength)

/-! ### ASCII art (`ASCII_filter`, `saveAsciiImage`, `changeImageSize`,
`make_ascii`) -/

/-- `struct AsciiFilter { int width; int height; char** pixels; }`. -/
structure AsciiFilter where
  width : Nat
  height : Nat
  pixels : List (List Char)
deriving DecidableEq

/-- The 92-character brightness ramp `ascii_chars` (given by code points to
keep the literal faithful). -/
def ASCII_ramp : List Char :=
  [32, 96, 46, 45, 39, 58, 95, 44, 94, 61, 59, 62, 60, 43, 33, 114, 99, 42,
   47, 122, 63, 115, 76, 84, 118, 41, 74, 55, 40, 124, 70, 105, 123, 67,
   125, 102, 73, 51, 49, 116, 108, 117, 91, 110, 101, 111, 90, 53, 89, 120,
   106, 121, 97, 93, 50, 69, 83, 119, 113, 107, 80, 54, 104, 57, 100, 52,
   86, 112, 79, 71, 98, 85, 65, 75, 88, 72, 109, 56, 82, 68, 35, 36, 66,
   103, 48, 77, 78, 87, 81, 37, 38, 64].map Char.ofNat

/-- The `R` values of the whole grid in scan order (the min/max loops). -/
def gray_values (img : ImageDetails) : List Nat :=
  ((List.range img.height).map fun y =>
    (List.range img.width).map fun x => (getPixel img y x).R).flatten

/-- `min_val`: running minimum starting from 255. -/
def min_val (img : ImageDetails) : Nat := (gray_values img).foldl min 255

/-- `max_val`: running maximum starting from 0. -/
def max_val (img : ImageDetails) : Nat := (gray_values img).foldl max 0

/-- `stretched = 255 * (val - min_val) / (max_val - min_val + 1)`
(truncating integer division; `val - min_val` is the nonnegative `int`
difference). -/
def stretch_val (minv maxv v : Nat) : Nat :=
  255 * (v - minv) / (maxv - minv + 1)

/-- `index = (stretched * (num_chars - 1)) / 255`. -/
def ramp_index (v : Nat) : Nat := v * (ASCII_ramp.length - 1) / 255

/-- `ASCII_filter`: grayscale the grid in place, stretch every intensity,
then map each pixel through the brightness ramp. -/
def ASCII_filter (img : ImageDetails) : AsciiFilter :=
  let gimg := applyGrayscale img
  let mn := min_val gimg
  let mx := max_val gimg
  let stretched : ImageDetails :=
    { gimg with
      pixels := buildPixels gimg.height gimg.width fun y x =>
        let s := stretch_val mn mx (getPixel gimg y x).R
        ⟨s, s, s⟩ }
  ⟨stretched.width, stretched.height,
   (List.range stretched.height).map fun y =>
     (List.range stretched.width).map fun x =>
       ASCII_ramp.getD (ramp_index (getPixel stretched y x).R) ' '⟩

/-- Read `ascii_image->pixels[y][x]`. -/
def getC (px : List (List Char)) (y x : Nat) : Char :=
  (px.getD y []).getD x ' '

/-- The lines `saveAsciiImage` writes to the text file, in writing order:
`for (int y = height - 1; y >= 0; y--)` emits one line per row `y`, each
with one character per column. -/
def saveAscii_lines (a : AsciiFilter) : List (List Char) :=
  (List.range a.height).map fun i =>
    (List.range a.width).map fun x => getC a.pixels (a.height - 1 - i) x

/-- The outcomes of `changeImageSize`: the two reported errors, plus the
unreported integer division by zero the C++ runs into when a computed
dimension is zero (undefined behavior — modelled as a distinct failure). -/
inductive ResizeError
  | tooLarge
  | divByZero
  | kernelZero
deriving DecidableEq

/-- `static_cast<int>(height * (new_width / (float)width) * 0.4f)`:
truncation of `height·new_width·0.4/width`, taken over exact rationals
(`Nat` division by `5·width` is the floor of `h·nw·2 / (5·w)`). -/
def resize_new_height (h w nw : Nat) : Nat := h * nw * 2 / (5 * w)

/-- The box of source pixels feeding output pixel `(y,x)`: in-bounds
samples of the `kernal_size_y × kernal_size_x` region. -/
def boxSamples (img : ImageDetails) (ky kx y x : Nat) : List Pixeldata :=
  ((List.range ky).map fun dy =>
    (List.range kx).filterMap fun dx =>
      if y * ky + dy < img.height ∧ x * kx + dx < img.width then
        some (getPixel img (y * ky + dy) (x * kx + dx))
      else none).flatten

/-- `changeImageSize`: validation, box kernel sizes, then box averaging
(`count` is forced to at least 1).  On `tooLarge` / `kernelZero` the C++
prints an error and returns with the grid untouched; when `new_width` or
the computed `new_height` is 0 the C++ instead performs `width/new_width`
or `height/new_height` — integer division by zero. -/
def changeImageSize (img : ImageDetails) (new_width : Nat) :
    Except ResizeError ImageDetails :=
  let new_height := resize_new_height img.height img.width new_width
  if new_width > img.width ∨ new_height > img.height then
    .error .tooLarge
  else if new_width = 0 ∨ new_height = 0 then
    .error .divByZero
  else
    let kernal_size_x := img.width / new_width
    let kernal_size_y := img.height / new_height
    if kernal_size_x = 0 ∨ kernal_size_y = 0 then
      .error .kernelZero
    else
      .ok ⟨new_width, new_height,
        buildPixels new_height new_width fun y x =>
          let samples := boxSamples img kernal_size_y kernal_size_x y x
          let count := max samples.length 1
          ⟨(samples.map (·.B)).sum / count,
           (samples.map (·.G)).sum / count,
           (samples.map (·.R)).sum / count⟩⟩

/-- The ascii-art path of `make_ascii` after the size prompt:
`changeImageSize(image, new_size)` then `ASCII_filter(image)`.
`make_ascii` never looks at whether the resize succeeded: on a reported
error (`tooLarge` / `kernelZero`) the grid is left untouched and
`ASCII_filter` runs on the **unresized** image; only the
division-by-zero case produces no output at all (the program is in
undefined behavior before `ASCII_filter` is reached). -/
def make_ascii_grid (img : ImageDetails) (new_width : Nat) : Option AsciiFilter :=
  match changeImageSize img new_width with
  | .ok resized => some (ASCII_filter resized)
  | .error .divByZero => none
  | .error _ => some (ASCII_filter img)

/-- Shape of an image: the stated width/height and a matching pixel array. -/
def sameDims (a : ImageDetails) (w h : Nat) : Prop :=
  a.width = w ∧ a.height = h ∧ a.pixels.length = h ∧ ∀ row ∈ a.pixels, row.length = w

/-- A concrete 3×3 test image with distinct pixels. -/
def exImage3 : ImageDetails :=
  ⟨3, 3,
   [[⟨10, 20, 30⟩, ⟨200, 100, 0⟩, ⟨5, 5, 5⟩],
    [⟨255, 0, 128⟩, ⟨40, 80, 120⟩, ⟨9, 90, 200⟩],
    [⟨0, 0, 0⟩, ⟨255, 255, 255⟩, ⟨17, 34, 51⟩]]⟩

/-! ### Supporting lemmas -/

theorem getPixel_uniform (h w : Nat) (p : Pixeldata) (y x : Nat)
    (hy : y < h) (hx : x < w) : getPixel (uniformImage h w p) y x = p := by
  unfold getPixel uniformImage
  exact getP_build h w _ y x hy hx

theorem buildPixels_congr (h w : Nat) (f g : Nat → Nat → Pixeldata)
    (hfg : ∀ y x, y < h → x < w → f y x = g y x) :
    buildPixels h w f = buildPixels h w g := by
  unfold buildPixels
  apply List.map_congr_left
  intro y hy
  apply List.map_congr_left
  intro x hx
  exact hfg y x (List.mem_range.mp hy) (List.mem_range.mp hx)

theorem foldl_min_le_init (l : List Nat) (a : Nat) : l.foldl min a ≤ a := by
  induction l generalizing a with
  | nil => exact le_refl a
  | cons b t ih => exact le_trans (ih (min a b)) (min_le_left a b)

theorem foldl_min_le_mem (l : List Nat) (a x : Nat) (hx : x ∈ l) :
    l.foldl min a ≤ x := by
  induction l generalizing a with
  | nil => cases hx
  | cons b t ih =>
    rcases List.mem_cons.mp hx with rfl | hmem
    · exact le_trans (foldl_min_le_init t (min a x)) (min_le_right a x)
    · exact ih (min a b) hmem

theorem le_foldl_max_init (l : List Nat) (a : Nat) : a ≤ l.foldl max a := by
  induction l generalizing a with
  | nil => exact le_refl a
  | cons b t ih => exact le_trans (le_max_left a b) (ih (max a b))

theorem le_foldl_max_mem (l : List Nat) (a x : Nat) (hx : x ∈ l) :
    x ≤ l.foldl max a := by
  induction l generalizing a with
  | nil => cases hx
  | cons b t ih =>
    rcases List.mem_cons.mp hx with rfl | hmem
    · exact le_trans (le_max_right a x) (le_foldl_max_init t (max a x))
    · exact ih (max a b) hmem

theorem mem_gray_values (img : ImageDetails) (y x : Nat)
    (hy : y < img.height) (hx : x < img.width) :
    (getPixel img y x).R ∈ gray_values img := by
  unfold gray_values
  rw [List.mem_flatten]
  refine ⟨(List.range img.width).map fun x => (getPixel img y x).R, ?_, ?_⟩
  · exact List.mem_map_of_mem _ (List.mem_range.mpr hy)
  · exact List.mem_map_of_mem _ (List.mem_range.mpr hx)

instance {ε α : Type} [DecidableEq ε] [DecidableEq α] : DecidableEq (Except ε α) := fun a b =>
  match a, b with
  | .ok a, .ok b =>
    if h : a = b then .isTrue (by rw [h]) else .isFalse (by intro hc; cases hc; exact h rfl)
  | .error a, .error b =>
    if h : a = b then .isTrue (by rw [h]) else .isFalse (by intro hc; cases hc; exact h rfl)
  | .ok _, .error _ => .isFalse (by intro hc; cases hc)
  | .error _, .ok _ => .isFalse (by intro hc; cases hc)

theorem mem_medianSamples (px : List (List Pixeldata)) (h w y x off : Nat)
    (q : Pixeldata) (hq : q ∈ medianSamples px h w y x off) :
    ∃ sy sx, sy < h ∧ sx < w ∧ q = getP px sy sx := by
  unfold medianSamples at hq
  rw [List.mem_flatten] at hq
  obtain ⟨l, hl, hql⟩ := hq
  rw [List.mem_map] at hl
  obtain ⟨ky, _, rfl⟩ := hl
  rw [List.mem_filterMap] at hql
  obtain ⟨kx, _, hkx⟩ := hql
  by_cases hcond : off ≤ y + ky ∧ y + ky - off < h ∧ off ≤ x + kx ∧ x + kx - off < w
  · rw [if_pos hcond] at hkx
    exact ⟨y + ky - off, x + kx - off, hcond.2.1, hcond.2.2.2, (Option.some_inj.mp hkx).symm⟩
  · rw [if_neg hcond] at hkx
    cases hkx

theorem foldl_min_all_eq (l : List Nat) (v : Nat) (hall : ∀ x ∈ l, x = v) :
    ∀ a, l ≠ [] → l.foldl min a = min a v := by
  induction l with
  | nil => intro a hne; exact absurd rfl hne
  | cons b t ih =>
    intro a _
    have hb : b = v := hall b (by simp)
    rcases Decidable.em (t = []) with ht | ht
    · subst ht
      simp [hb]
    · rw [List.foldl_cons, ih (fun x hx => hall x (by simp [hx])) (min a b) ht, hb,
        min_assoc, min_self]

theorem foldl_max_all_eq (l : List Nat) (v : Nat) (hall : ∀ x ∈ l, x = v) :
    ∀ a, l ≠ [] → l.foldl max a = max a v := by
  induction l with
  | nil => intro a hne; exact absurd rfl hne
  | cons b t ih =>
    intro a _
    have hb : b = v := hall b (by simp)
    rcases Decidable.em (t = []) with ht | ht
    · subst ht
      simp [hb]
    · rw [List.foldl_cons, ih (fun x hx => hall x (by simp [hx])) (max a b) ht, hb,
        max_assoc, max_self]

theorem sum_all_eq (l : List Nat) (c : Nat) (hall : ∀ x ∈ l, x = c) :
    l.sum = l.length * c := by
  induction l with
  | nil => simp
  | cons b t ih =>
    rw [List.sum_cons, ih (fun x hx => hall x (by simp [hx])), hall b (by simp),
      List.length_cons]
    ring

theorem mem_gray_values_decomp (img : ImageDetails) (v : Nat)
    (hv : v ∈ gray_values img) :
    ∃ y x, y < img.height ∧ x < img.width ∧ v = (getPixel img y x).R := by
  unfold gray_values at hv
  rw [List.mem_flatten] at hv
  obtain ⟨l, hl, hvl⟩ := hv
  rw [List.mem_map] at hl
  obtain ⟨y, hy, rfl⟩ := hl
  rw [List.mem_map] at hvl
  obtain ⟨x, hx, rfl⟩ := hvl
  exact ⟨y, x, List.mem_range.mp hy, List.mem_range.mp hx, rfl⟩

theorem mem_boxSamples_decomp (img : ImageDetails) (ky kx y x : Nat)
    (q : Pixeldata) (hq : q ∈ boxSamples img ky kx y x) :
    ∃ sy sx, sy < img.height ∧ sx < img.width ∧ q = getPixel img sy sx := by
  unfold boxSamples at hq
  rw [List.mem_flatten] at hq
  obtain ⟨l, hl, hql⟩ := hq
  rw [List.mem_map] at hl
  obtain ⟨dy, _, rfl⟩ := hl
  rw [List.mem_filterMap] at hql
  obtain ⟨dx, _, hdx⟩ := hql
  by_cases hcond : y * ky + dy < img.height ∧ x * kx + dx < img.width
  · rw [if_pos hcond] at hdx
    exact ⟨y * ky + dy, x * kx + dx, hcond.1, hcond.2, (Option.some_inj.mp hdx).symm⟩
  · rw [if_neg hcond] at hdx
    cases hdx

theorem mem_boxSamples_origin (img : ImageDetails) (ky kx y x : Nat)
    (hky : 0 < ky) (hkx : 0 < kx)
    (hy : y * ky < img.height) (hx : x * kx < img.width) :
    getPixel img (y * ky) (x * kx) ∈ boxSamples img ky kx y x := by
  unfold boxSamples
  rw [List.mem_flatten]
  refine ⟨(List.range kx).filterMap fun dx =>
      if y * ky + 0 < img.height ∧ x * kx + dx < img.width then
        some (getPixel img (y * ky + 0) (x * kx + dx))
      else none, ?_, ?_⟩
  · exact List.mem_map_of_mem _ (List.mem_range.mpr hky)
  · rw [List.mem_filterMap]
    refine ⟨0, List.mem_range.mpr hkx, ?_⟩
    rw [if_pos ⟨by simpa using hy, by simpa using hx⟩]
    simp

theorem getPixel_mk_build (wd ht h w : Nat) (f : Nat → Nat → Pixeldata)
(y x : Nat) (hy : y < h) (hx : x < w) :
    getPixel ⟨wd, ht, buildPixels h w f⟩ y x = f y x :=
  getP_build h w f y x hy hx

/-! ### Uniform-image lemmas -/

theorem applyGrayscale_uniform (h w g : Nat) :
    applyGrayscale (uniformImage h w ⟨g, g, g⟩) = uniformImage h w ⟨g, g, g⟩ := by
  unfold applyGrayscale uniformImage
  congr 1
  apply buildPixels_congr
  intro y x hy hx
  rw [show getPixel ⟨w, h, buildPixels h w fun _ _ => (⟨g, g, g⟩ : Pixeldata)⟩ y x
        = (⟨g, g, g⟩ : Pixeldata) from getP_build h w _ y x hy hx]
  have : (g + g + g) / 3 = g := by omega
  simp [this]

theorem gray_values_uniform_all (h w g : Nat) :
    ∀ v ∈ gray_values (uniformImage h w ⟨g, g, g⟩), v = g := by
  intro v hv
  obtain ⟨y, x, hy, hx, rfl⟩ := mem_gray_values_decomp _ v hv
  rw [getPixel_uniform h w _ y x hy hx]

theorem gray_values_ne_nil (img : ImageDetails)
    (hh : 0 < img.height) (hw : 0 < img.width) : gray_values img ≠ [] :=
  List.ne_nil_of_mem (mem_gray_values img 0 0 hh hw)

theorem min_val_uniform (h w g : Nat) (hh : 0 < h) (hw : 0 < w) (hg : g ≤ 255) :
    min_val (uniformImage h w ⟨g, g, g⟩) = g := by
  unfold min_val
  rw [foldl_min_all_eq _ g (gray_values_uniform_all h w g) 255
    (gray_values_ne_nil _ hh hw)]
  exact min_eq_right hg

theorem max_val_uniform (h w g : Nat) (hh : 0 < h) (hw : 0 < w) :
    max_val (uniformImage h w ⟨g, g, g⟩) = g := by
  unfold max_val
  rw [foldl_max_all_eq _ g (gray_values_uniform_all h w g) 0
    (gray_values_ne_nil _ hh hw)]
  exact max_eq_right (Nat.zero_le g)


/-! ## Claim C1 — noise-reduction strength normalization -/

/-- C1 counterexample: the claim says an **even** strength is incremented
then halved and that `3 + adjusted_strength` is always odd.  In the code
the branch fires for **odd** strengths (`filter_strength % 2 != 0`): at
strength 2 nothing is adjusted (`adjust_strength 2 = 2 ≠ (2+1)/2`), and at
strength 1 the kernel size is `3 + (1+1)/2 = 4`, which is even. -/
theorem noise_strength_normalization_cex :
    (2 % 2 = 0 ∧ adjust_strength 2 ≠ (2 + 1) / 2) ∧
    (1 ≤ 1 ∧ (1 : Nat) ≤ 100 ∧ ¬ Odd (kernel_size 1)) := by
  decide

/-- C1 (amended): for every strength in [1,100], the strength is
incremented by 1 then halved exactly when it is **odd** (even strengths
pass through unchanged); `kernel_size = 3 + adjusted_strength` with
`offset = kernel_size / 2`, and the kernel size is odd iff the original
strength is even or congruent to 3 mod 4. -/
theorem adjust_strength_characterization (s : Nat) (h1 : 1 ≤ s) (h2 : s ≤ 100) :
    adjust_strength s = (if s % 2 = 1 then (s + 1) / 2 else s) ∧
    (Odd (kernel_size s) ↔ s % 2 = 0 ∨ s % 4 = 3) ∧
    kernel_offset s = kernel_size s / 2 := by
  refine ⟨?_, ?_, rfl⟩
  · unfold adjust_strength
    split <;> split <;> omega
  · rw [Nat.odd_iff]
    unfold kernel_size adjust_strength
    split <;> omega

/-- C1 witness: at strength 4 (even) nothing is adjusted and the kernel
size `3 + 4 = 7` is odd. -/
theorem adjust_strength_characterization_witness :
    1 ≤ 4 ∧ 4 ≤ 100 ∧
    (adjust_strength 4 = (if 4 % 2 = 1 then (4 + 1) / 2 else 4) ∧
     (Odd (kernel_size 4) ↔ 4 % 2 = 0 ∨ 4 % 4 = 3) ∧
     kernel_offset 4 = kernel_size 4 / 2) :=
  ⟨by decide, by decide, adjust_strength_characterization 4 (by decide) (by decide)⟩

/-! ## Claim C2 — `changeImageSize` error handling -/

/-- C2 (code bug): the claim (and the code's own error message) says a
non-positive box kernel — in particular a computed `new_height` of 0 — is
detected and reported.  But the C++ computes `image.height / new_height`
*before* the kernel-size check: on a 5×5 image with requested width 1 the
computed `new_height = int(5 · (1/5) · 0.4) = 0` passes the dimension
check and the very next statement divides by zero (undefined behavior),
so the kernel-size-≤0 branch is never reached. -/
theorem changeImageSize_div_by_zero :
    resize_new_height 5 5 1 = 0 ∧
    changeImageSize (uniformImage 5 5 ⟨0, 0, 0⟩) 1 =
      Except.error ResizeError.divByZero := by
  exact ⟨rfl, by decide⟩

/-! ## Claim C3 — text-writer row order -/

/-- C3 counterexample: on the 1×2 ascii grid with rows `"a"`, `"b"` (row 0
is `"a"`), the writer emits `"b"` first: the loop runs
`for (y = height-1; y >= 0; y--)`, so rows are *not* written in the stored
order. -/
theorem saveAscii_not_stored_order :
    saveAscii_lines ⟨1, 2, [['a'], ['b']]⟩ = [['b'], ['a']] ∧
    saveAscii_lines ⟨1, 2, [['a'], ['b']]⟩ ≠ [['a'], ['b']] := by
  decide

/-- C3 (amended): the text writer emits the grid's rows in **reverse** of
the stored order (row `height-1` first, row 0 last), one line per row with
one character per column. -/
theorem saveAscii_lines_reversed (a : AsciiFilter)
    (hlen : a.pixels.length = a.height)
    (hrow : ∀ row ∈ a.pixels, row.length = a.width) :
    saveAscii_lines a = a.pixels.reverse := by
  apply List.ext_getElem
  · simp [saveAscii_lines, hlen]
  · intro i h₁ h₂
    have hi : i < a.height := by simpa [saveAscii_lines] using h₁
    have hrev : i < a.pixels.length := by simpa using h₂
    have hlhs : (saveAscii_lines a)[i] =
        (List.range a.width).map fun x => getC a.pixels (a.height - 1 - i) x := by
      simp [saveAscii_lines]
    rw [hlhs, List.getElem_reverse]
    have hyy : a.pixels.length - 1 - i < a.pixels.length := by omega
    have hylen : (a.pixels[a.pixels.length - 1 - i]).length = a.width :=
      hrow _ (List.getElem_mem hyy)
    apply List.ext_getElem
    · simpa using hylen.symm
    · intro x hx₁ hx₂
      have hxw : x < a.width := by simpa using hx₁
      simp only [List.getElem_map, List.getElem_range]
      unfold getC
      rw [List.getD_eq_getElem?_getD (l := a.pixels)]
      have hidx : a.height - 1 - i = a.pixels.length - 1 - i := by omega
      rw [hidx, List.getElem?_eq_getElem hyy]
      simp [List.getD_eq_getElem?_getD, List.getElem?_eq_getElem hx₂]

/-- A concrete 2×2 ascii grid. -/
def exAscii2 : AsciiFilter := ⟨2, 2, [['a', 'b'], ['c', 'd']]⟩

/-- C3 witness: the reversal theorem applied to the concrete 2×2 grid. -/
theorem saveAscii_lines_reversed_witness :
    (exAscii2.pixels.length = exAscii2.height ∧
     ∀ row ∈ exAscii2.pixels, row.length = exAscii2.width) ∧
    saveAscii_lines exAscii2 = exAscii2.pixels.reverse :=
  ⟨⟨by decide, by decide⟩, saveAscii_lines_reversed exAscii2 (by decide) (by decide)⟩

/-! ## Claim C4 — ascii art on a uniform 8×8 image -/

/-- C4 counterexample: the ascii-art path on the uniform-gray 8×8 image
with requested width 4 produces four identical characters, but they are
the **first** ramp character (a space, index 0), not the mid-ramp
character: min==max stretching yields `255·0/1 = 0`, hence ramp index 0.
Neither candidate middle character (index 45 or 46 of the 92-entry ramp)
is a space. -/
theorem ascii_uniform_not_mid_ramp :
    (make_ascii_grid (uniformImage 8 8 ⟨128, 128, 128⟩) 4).map AsciiFilter.pixels =
      some [[' ', ' ', ' ', ' ']] ∧
    ASCII_ramp.getD 0 '@' = ' ' ∧
    ASCII_ramp.getD 45 ' ' ≠ ' ' ∧
    ASCII_ramp.getD 46 ' ' ≠ ' ' := by
  decide

/-- The ascii filter on a uniform-gray image: min and max coincide, every
stretched value is 0, so every output character is the first ramp
character (a space). -/
theorem ASCII_filter_uniform (h w g : Nat) (hh : 0 < h) (hw : 0 < w)
    (hg : g ≤ 255) :
    ASCII_filter (uniformImage h w ⟨g, g, g⟩) =
      ⟨w, h, (List.range h).map fun _ => (List.range w).map fun _ => ' '⟩ := by
  simp only [ASCII_filter]
  rw [applyGrayscale_uniform, min_val_uniform h w g hh hw hg,
    max_val_uniform h w g hh hw]
  congr 1
  apply List.map_congr_left
  intro y hy
  apply List.map_congr_left
  intro x hx
  rw [getPixel_mk_build _ _ _ _ _ y x (List.mem_range.mp hy) (List.mem_range.mp hx)]
  rw [show getPixel (uniformImage h w ⟨g, g, g⟩) y x = ⟨g, g, g⟩ from
    getPixel_uniform h w _ y x (List.mem_range.mp hy) (List.mem_range.mp hx)]
  simp only [stretch_val, ramp_index, Nat.sub_self, Nat.mul_zero, Nat.zero_mul,
    Nat.zero_div]
  rfl

/-- Resizing the uniform 8×8 image to width 4: the computed height is 1,
box kernels are 2×8, and each box of 16 identical pixels averages back to
the same pixel. -/
theorem changeImageSize_uniform_8_4 (p : Pixeldata) :
    changeImageSize (uniformImage 8 8 p) 4 = Except.ok (uniformImage 1 4 p) := by
  have h1 : (uniformImage 8 8 p).width = 8 := rfl
  have h2 : (uniformImage 8 8 p).height = 8 := rfl
  unfold changeImageSize
  rw [h1, h2]
  norm_num [resize_new_height]
  rw [show uniformImage 1 4 p = ⟨4, 1, buildPixels 1 4 fun _ _ => p⟩ from rfl]
  congr 1
  apply buildPixels_congr
  intro y x hy hx
  have hall : ∀ q ∈ boxSamples (uniformImage 8 8 p) 8 2 y x, q = p := by
    intro q hq
    obtain ⟨sy, sx, hsy, hsx, rfl⟩ := mem_boxSamples_decomp _ _ _ _ _ q hq
    exact getPixel_uniform 8 8 p sy sx hsy hsx
  have hmem : getPixel (uniformImage 8 8 p) (y * 8) (x * 2) ∈
      boxSamples (uniformImage 8 8 p) 8 2 y x := by
    apply mem_boxSamples_origin _ _ _ _ _ (by decide) (by decide)
    · show y * 8 < 8
      omega
    · show x * 2 < 8
      omega
  have hL : 0 < (boxSamples (uniformImage 8 8 p) 8 2 y x).length :=
    List.length_pos.mpr (List.ne_nil_of_mem hmem)
  have hcnt : max (boxSamples (uniformImage 8 8 p) 8 2 y x).length 1
      = (boxSamples (uniformImage 8 8 p) 8 2 y x).length :=
    Nat.max_eq_left hL
  have hchan : ∀ f : Pixeldata → Nat,
      ((boxSamples (uniformImage 8 8 p) 8 2 y x).map f).sum =
        (boxSamples (uniformImage 8 8 p) 8 2 y x).length * f p := by
    intro f
    rw [sum_all_eq _ (f p), List.length_map]
    intro c hc
    obtain ⟨q, hq, rfl⟩ := List.mem_map.mp hc
    rw [hall q hq]
  cases p with
  | mk pb pg pr =>
    simp only [hcnt, hchan]
    congr 1 <;> try rfl
    all_goals exact Nat.mul_div_cancel_left _ hL

/-- C4 (amended): for every byte gray value, the ascii-art path on an
8-wide, 8-tall uniform image with requested width 4 yields a 4×1 grid
whose characters are all identical and equal to the **first** (brightest)
character of the brightness ramp, a space. -/
theorem ascii_uniform_first_ramp_char (g : Nat) (hg : g ≤ 255) :
    make_ascii_grid (uniformImage 8 8 ⟨g, g, g⟩) 4 =
      some ⟨4, 1, [[' ', ' ', ' ', ' ']]⟩ ∧
    ASCII_ramp.getD 0 '@' = ' ' := by
  refine ⟨?_, by decide⟩
  unfold make_ascii_grid
  rw [changeImageSize_uniform_8_4]
  show some (ASCII_filter (uniformImage 1 4 ⟨g, g, g⟩)) = _
  rw [ASCII_filter_uniform 1 4 g (by decide) (by decide) hg]
  rfl

/-- C4 witness: the amended theorem at gray value 128. -/
theorem ascii_uniform_first_ramp_char_witness :
    128 ≤ 255 ∧
    (make_ascii_grid (uniformImage 8 8 ⟨128, 128, 128⟩) 4 =
       some ⟨4, 1, [[' ', ' ', ' ', ' ']]⟩ ∧
     ASCII_ramp.getD 0 '@' = ' ') :=
  ⟨by decide, ascii_uniform_first_ramp_char 128 (by decide)⟩

/-! ## Claim C5 — the sharpen pipeline -/

theorem getPixel_subtract (a b : ImageDetails) (y x : Nat)
    (hy : y < a.height) (hx : x < a.width) :
    getPixel (subtract_images a b) y x =
      ⟨byteSub (getPixel a y x).B (getPixel b y x).B,
       byteSub (getPixel a y x).G (getPixel b y x).G,
       byteSub (getPixel a y x).R (getPixel b y x).R⟩ :=
  getP_build a.height a.width _ y x hy hx

theorem getPixel_multiply (img : ImageDetails) (s y x : Nat)
    (hy : y < img.height) (hx : x < img.width) :
    getPixel (multiply_image img s) y x =
      ⟨min ((getPixel img y x).B * s) 255,
       min ((getPixel img y x).G * s) 255,
       min ((getPixel img y x).R * s) 255⟩ :=
  getP_build img.height img.width _ y x hy hx

theorem getPixel_add (a b : ImageDetails) (y x : Nat)
    (hy : y < a.height) (hx : x < a.width) :
    getPixel (add_images a b) y x =
      ⟨min ((getPixel a y x).B + (getPixel b y x).B) 255,
       min ((getPixel a y x).G + (getPixel b y x).G) 255,
       min ((getPixel a y x).R + (getPixel b y x).R) 255⟩ :=
  getP_build a.height a.width _ y x hy hx

/-- C5: at every pixel, sharpen computes exactly
`clamp(orig + clamp(((orig − blurred) mod 256) · strength, 0, 255), 0, 255)`
per channel, where `blurred` is one Gaussian-blur pass over (a deep copy
of) the input, the subtraction is unsigned-8-bit wraparound with no
clamping, and the strength multiplier is applied raw before its own
clamp. -/
theorem applySharpen_pointwise (img : ImageDetails) (s y x : Nat)
    (hy : y < img.height) (hx : x < img.width) :
    getPixel (applySharpen img s) y x =
      ⟨min ((getPixel img y x).B +
         min (((((getPixel img y x).B : Int) -
           ((getPixel (applyGaussianBlur img) y x).B : Int)) % 256).toNat * s) 255) 255,
       min ((getPixel img y x).G +
         min (((((getPixel img y x).G : Int) -
           ((getPixel (applyGaussianBlur img) y x).G : Int)) % 256).toNat * s) 255) 255,
       min ((getPixel img y x).R +
         min (((((getPixel img y x).R : Int) -
           ((getPixel (applyGaussianBlur img) y x).R : Int)) % 256).toNat * s) 255) 255⟩ := by
  simp only [applySharpen]
  rw [show (add_images img (multiply_image (subtract_images img
        (applyGaussianBlur img)) s)).height = img.height from rfl,
      show (add_images img (multiply_image (subtract_images img
        (applyGaussianBlur img)) s)).width = img.width from rfl]
  rw [getPixel_mk_build _ _ _ _ _ y x hy hx]
  rw [getPixel_add _ _ y x hy hx]
  dsimp only
  rw [getPixel_multiply (subtract_images img (applyGaussianBlur img)) s y x hy hx]
  dsimp only
  rw [getPixel_subtract img (applyGaussianBlur img) y x hy hx]
  dsimp only
  simp only [byteSub, min_assoc, min_self]

/-- C5 witness: the pointwise sharpen formula at pixel (1,1) of the
concrete 3×3 image with strength 2. -/
theorem applySharpen_pointwise_witness :
    1 < exImage3.height ∧ 1 < exImage3.width ∧
    getPixel (applySharpen exImage3 2) 1 1 =
      ⟨min ((getPixel exImage3 1 1).B +
         min (((((getPixel exImage3 1 1).B : Int) -
           ((getPixel (applyGaussianBlur exImage3) 1 1).B : Int)) % 256).toNat * 2) 255) 255,
       min ((getPixel exImage3 1 1).G +
         min (((((getPixel exImage3 1 1).G : Int) -
           ((getPixel (applyGaussianBlur exImage3) 1 1).G : Int)) % 256).toNat * 2) 255) 255,
       min ((getPixel exImage3 1 1).R +
         min (((((getPixel exImage3 1 1).R : Int) -
           ((getPixel (applyGaussianBlur exImage3) 1 1).R : Int)) % 256).toNat * 2) 255) 255⟩ :=
  ⟨by decide, by decide, applySharpen_pointwise exImage3 2 1 1 (by decide) (by decide)⟩

/-! ## Claim C6 — Gaussian blur frame effect -/

theorem convSum_eq (px : List (List Pixeldata)) (y x : Nat) (f : Pixeldata → Nat) :
    convSum px y x f =
      f (getP px (y - 1) (x - 1)) + 2 * f (getP px (y - 1) x) +
        f (getP px (y - 1) (x + 1)) +
      2 * f (getP px y (x - 1)) + 4 * f (getP px y x) +
        2 * f (getP px y (x + 1)) +
      f (getP px (y + 1) (x - 1)) + 2 * f (getP px (y + 1) x) +
        f (getP px (y + 1) (x + 1)) := by
  simp [convSum, GAUSSIAN_KERNEL_W, List.range_succ]
  ring

/-- C6: for a grid at least 3×3, one blur pass leaves the 1-pixel border
ring exactly as it was, and writes every interior pixel as the 3×3
binomial average (truncated, clamped) of the **pre-filter** grid — the
convolution reads the snapshot copy, never already-blurred neighbors. -/
theorem applyGaussianBlur_border_and_interior (img : ImageDetails)
    (hh : 3 ≤ img.height) (hw : 3 ≤ img.width) :
    (∀ y x, y < img.height → x < img.width →
      (y = 0 ∨ y = img.height - 1 ∨ x = 0 ∨ x = img.width - 1) →
      getPixel (applyGaussianBlur img) y x = getPixel img y x) ∧
    (∀ y x, 1 ≤ y → y ≤ img.height - 2 → 1 ≤ x → x ≤ img.width - 2 →
      getPixel (applyGaussianBlur img) y x =
        ⟨min (((getPixel img (y - 1) (x - 1)).B + 2 * (getPixel img (y - 1) x).B +
                (getPixel img (y - 1) (x + 1)).B +
              2 * (getPixel img y (x - 1)).B + 4 * (getPixel img y x).B +
                2 * (getPixel img y (x + 1)).B +
              (getPixel img (y + 1) (x - 1)).B + 2 * (getPixel img (y + 1) x).B +
                (getPixel img (y + 1) (x + 1)).B) / 16) 255,
         min (((getPixel img (y - 1) (x - 1)).G + 2 * (getPixel img (y - 1) x).G +
                (getPixel img (y - 1) (x + 1)).G +
              2 * (getPixel img y (x - 1)).G + 4 * (getPixel img y x).G +
                2 * (getPixel img y (x + 1)).G +
              (getPixel img (y + 1) (x - 1)).G + 2 * (getPixel img (y + 1) x).G +
                (getPixel img (y + 1) (x + 1)).G) / 16) 255,
         min (((getPixel img (y - 1) (x - 1)).R + 2 * (getPixel img (y - 1) x).R +
                (getPixel img (y - 1) (x + 1)).R +
              2 * (getPixel img y (x - 1)).R + 4 * (getPixel img y x).R +
                2 * (getPixel img y (x + 1)).R +
              (getPixel img (y + 1) (x - 1)).R + 2 * (getPixel img (y + 1) x).R +
                (getPixel img (y + 1) (x + 1)).R) / 16) 255⟩) := by
  constructor
  · intro y x hy hx hborder
    unfold applyGaussianBlur
    rw [getPixel_mk_build _ _ _ _ _ y x hy hx]
    rw [if_neg (by omega)]
  · intro y x hy1 hy2 hx1 hx2
    have hy : y < img.height := by omega
    have hx : x < img.width := by omega
    unfold applyGaussianBlur
    rw [getPixel_mk_build _ _ _ _ _ y x hy hx]
    rw [if_pos (by omega)]
    unfold gaussPixel
    rw [convSum_eq, convSum_eq, convSum_eq]
    rfl

/-- C6 witness: the border/interior characterization on the concrete 3×3
image. -/
theorem applyGaussianBlur_border_and_interior_witness :
    3 ≤ exImage3.height ∧ 3 ≤ exImage3.width ∧
    ((∀ y x, y < exImage3.height → x < exImage3.width →
      (y = 0 ∨ y = exImage3.height - 1 ∨ x = 0 ∨ x = exImage3.width - 1) →
      getPixel (applyGaussianBlur exImage3) y x = getPixel exImage3 y x) ∧
    (∀ y x, 1 ≤ y → y ≤ exImage3.height - 2 → 1 ≤ x → x ≤ exImage3.width - 2 →
      getPixel (applyGaussianBlur exImage3) y x =
        ⟨min (((getPixel exImage3 (y - 1) (x - 1)).B + 2 * (getPixel exImage3 (y - 1) x).B +
                (getPixel exImage3 (y - 1) (x + 1)).B +
              2 * (getPixel exImage3 y (x - 1)).B + 4 * (getPixel exImage3 y x).B +
                2 * (getPixel exImage3 y (x + 1)).B +
              (getPixel exImage3 (y + 1) (x - 1)).B + 2 * (getPixel exImage3 (y + 1) x).B +
                (getPixel exImage3 (y + 1) (x + 1)).B) / 16) 255,
         min (((getPixel exImage3 (y - 1) (x - 1)).G + 2 * (getPixel exImage3 (y - 1) x).G +
                (getPixel exImage3 (y - 1) (x + 1)).G +
              2 * (getPixel exImage3 y (x - 1)).G + 4 * (getPixel exImage3 y x).G +
                2 * (getPixel exImage3 y (x + 1)).G +
              (getPixel exImage3 (y + 1) (x - 1)).G + 2 * (getPixel exImage3 (y + 1) x).G +
                (getPixel exImage3 (y + 1) (x + 1)).G) / 16) 255,
         min (((getPixel exImage3 (y - 1) (x - 1)).R + 2 * (getPixel exImage3 (y - 1) x).R +
                (getPixel exImage3 (y - 1) (x + 1)).R +
              2 * (getPixel exImage3 y (x - 1)).R + 4 * (getPixel exImage3 y x).R +
                2 * (getPixel exImage3 y (x + 1)).R +
              (getPixel exImage3 (y + 1) (x - 1)).R + 2 * (getPixel exImage3 (y + 1) x).R +
                (getPixel exImage3 (y + 1) (x + 1)).R) / 16) 255⟩)) :=
  ⟨by decide, by decide,
    applyGaussianBlur_border_and_interior exImage3 (by decide) (by decide)⟩

/-! ## Claim C7 — stretch and ramp-index bounds -/

theorem ASCII_ramp_length : ASCII_ramp.length = 92 := by decide

/-- C7: for every grid and every pixel of it, the stretched intensity
`255·(val−min)/(max−min+1)` has a nonzero denominator even when min==max
and is always strictly below 255; consequently the ramp index
`intensity·(rampLength−1)/255` is at most `rampLength−2`, in bounds, and
the final (darkest) ramp character's index is never produced. -/
theorem stretch_ramp_bounds (img : ImageDetails) (y x : Nat)
    (hy : y < img.height) (hx : x < img.width) :
    0 < max_val img - min_val img + 1 ∧
    stretch_val (min_val img) (max_val img) ((getPixel img y x).R) < 255 ∧
    ramp_index (stretch_val (min_val img) (max_val img) ((getPixel img y x).R)) ≤
      ASCII_ramp.length - 2 ∧
    ramp_index (stretch_val (min_val img) (max_val img) ((getPixel img y x).R)) <
      ASCII_ramp.length ∧
    ramp_index (stretch_val (min_val img) (max_val img) ((getPixel img y x).R)) ≠
      ASCII_ramp.length - 1 := by
  have hmem := mem_gray_values img y x hy hx
  have hmin : min_val img ≤ (getPixel img y x).R := foldl_min_le_mem _ 255 _ hmem
  have hmax : (getPixel img y x).R ≤ max_val img := le_foldl_max_mem _ 0 _ hmem
  have hs : stretch_val (min_val img) (max_val img) ((getPixel img y x).R) < 255 := by
    unfold stretch_val
    rw [Nat.div_lt_iff_lt_mul (by omega)]
    have h1 : (getPixel img y x).R - min_val img ≤ max_val img - min_val img := by
      omega
    have h2 := Nat.mul_le_mul_left 255 h1
    omega
  have hr : ramp_index (stretch_val (min_val img) (max_val img) ((getPixel img y x).R)) ≤ 90 := by
    unfold ramp_index
    rw [ASCII_ramp_length]
    calc stretch_val (min_val img) (max_val img) ((getPixel img y x).R) * (92 - 1) / 255
        ≤ 254 * (92 - 1) / 255 :=
          Nat.div_le_div_right (Nat.mul_le_mul_right _ (by omega))
      _ = 90 := by norm_num
  refine ⟨by omega, hs, ?_, ?_, ?_⟩ <;> rw [ASCII_ramp_length] <;> omega

/-- C7 witness: the bounds at pixel (0,0) of the concrete 3×3 image. -/
theorem stretch_ramp_bounds_witness :
    0 < exImage3.height ∧ 0 < exImage3.width ∧
    (0 < max_val exImage3 - min_val exImage3 + 1 ∧
     stretch_val (min_val exImage3) (max_val exImage3) ((getPixel exImage3 0 0).R) < 255 ∧
     ramp_index (stretch_val (min_val exImage3) (max_val exImage3)
       ((getPixel exImage3 0 0).R)) ≤ ASCII_ramp.length - 2 ∧
     ramp_index (stretch_val (min_val exImage3) (max_val exImage3)
       ((getPixel exImage3 0 0).R)) < ASCII_ramp.length ∧
     ramp_index (stretch_val (min_val exImage3) (max_val exImage3)
       ((getPixel exImage3 0 0).R)) ≠ ASCII_ramp.length - 1) :=
  ⟨by decide, by decide, stretch_ramp_bounds exImage3 0 0 (by decide) (by decide)⟩

/-! ## Claim C8 — median filter on a uniform grid

The claimed identity is the algorithm's intent (median of identical
samples is that value), and it does hold on the collected-sample model:
`applyNoiseReduction_uniform` below.  The program itself, however,
overflows its `kernel_size²`-byte sample buffers whenever a window
collects more samples than that — which happens for every strength
≡ 1 mod 4 on a large-enough grid (strength 1: kernel 4, offset 2, 5×5
window of up to 25 samples vs 16-byte buffers), corrupting the buffers
the median is read from.  So the claim as stated ("any strength") is
right about the intent and wrong about the code: see
`noiseReduction_buffer_overflow`. -/

theorem sorted_getD_all_eq (l : List Nat) (c : Nat) (hall : ∀ v ∈ l, v = c)
    (hl : 0 < l.length) :
    (List.insertionSort (· ≤ ·) l).getD (l.length / 2) 0 = c := by
  have hperm : (List.insertionSort (· ≤ ·) l).Perm l := List.perm_insertionSort _ l
  have hidx : l.length / 2 < (List.insertionSort (· ≤ ·) l).length := by
    rw [hperm.length_eq]
    exact Nat.div_lt_self hl (by norm_num)
  rw [List.getD_eq_getElem?_getD, List.getElem?_eq_getElem hidx]
  exact hall _ (hperm.mem_iff.mp (List.getElem_mem hidx))

theorem update_pixels_self (img : ImageDetails) (P : List (List Pixeldata))
    (h : P = img.pixels) : { img with pixels := P } = img := by
  rw [h]

/-- The intended median behavior (collected-sample model, no buffer
overflow): on a grid whose pixels all equal `p`, every window sample
equals `p`, each sorted channel list is constant and its median is the
original value, so the filter is the identity. -/
theorem applyNoiseReduction_uniform (img : ImageDetails) (p : Pixeldata) (s : Nat)
    (hv : validImage img)
    (hu : ∀ y x, y < img.height → x < img.width → getPixel img y x = p) :
    applyNoiseReduction img s = img := by
  simp only [applyNoiseReduction]
  apply update_pixels_self
  refine (buildPixels_congr _ _ _ (fun y x => getPixel img y x) ?_).trans
    (build_getPixel_eq img hv)
  intro y x hy hx
  have hall : ∀ q ∈ medianSamples img.pixels img.height img.width y x
      (kernel_offset s), q = p := by
    intro q hq
    obtain ⟨sy, sx, hsy, hsx, rfl⟩ := mem_medianSamples _ _ _ _ _ _ q hq
    exact hu sy sx hsy hsx
  by_cases hlen :
      0 < (medianSamples img.pixels img.height img.width y x (kernel_offset s)).length
  · rw [if_pos hlen]
    dsimp only
    rw [hu y x hy hx]
    have key : ∀ f : Pixeldata → Nat,
        (List.insertionSort (· ≤ ·)
          ((medianSamples img.pixels img.height img.width y x (kernel_offset s)).map f)).getD
          ((medianSamples img.pixels img.height img.width y x (kernel_offset s)).length / 2)
          0 = f p := by
      intro f
      have h1 : ∀ v ∈ (medianSamples img.pixels img.height img.width y x
          (kernel_offset s)).map f, v = f p := by
        intro v hv'
        obtain ⟨q, hq, rfl⟩ := List.mem_map.mp hv'
        rw [hall q hq]
      have h2 : 0 < ((medianSamples img.pixels img.height img.width y x
          (kernel_offset s)).map f).length := by simpa using hlen
      have h3 := sorted_getD_all_eq _ (f p) h1 h2
      simpa using h3
    rw [key fun q => q.B, key fun q => q.G, key fun q => q.R]
  · rw [if_neg hlen]

/-- The identity lemma exercised concretely: noise reduction at strength 1
on a uniform 4×4 grid (where the 16 window samples exactly fill the
16-byte buffers, so no overflow occurs) leaves the grid unchanged. -/
theorem applyNoiseReduction_uniform_witness :
    (validImage (uniformImage 4 4 ⟨7, 8, 9⟩) ∧
     ∀ y x, y < (uniformImage 4 4 (⟨7, 8, 9⟩ : Pixeldata)).height →
       x < (uniformImage 4 4 (⟨7, 8, 9⟩ : Pixeldata)).width →
       getPixel (uniformImage 4 4 ⟨7, 8, 9⟩) y x = ⟨7, 8, 9⟩) ∧
    applyNoiseReduction (uniformImage 4 4 ⟨7, 8, 9⟩) 1 = uniformImage 4 4 ⟨7, 8, 9⟩ :=
  ⟨⟨by decide, fun y x hy hx => getPixel_uniform 4 4 _ y x hy hx⟩,
   applyNoiseReduction_uniform (uniformImage 4 4 ⟨7, 8, 9⟩) ⟨7, 8, 9⟩ 1 (by decide)
     (fun y x hy hx => getPixel_uniform 4 4 _ y x hy hx)⟩

/-- C8 (code bug): at strength 1 the kernel size is 4, so the C++ sample
buffers hold `4·4 = 16` bytes, yet with offset 2 the collection window
spans 5×5: at the center pixel of a uniform 5×5 grid all 25 samples are
in bounds and the loops write 9 bytes past each buffer's end — undefined
behavior before any median is taken, so the program does not return the
grid unchanged "for any strength" as claimed.  On the 4×4 grid (at most
16 in-bounds samples) no overflow occurs and the run is the identity. -/
theorem noiseReduction_buffer_overflow :
    kernel_size 1 * kernel_size 1 = 16 ∧
    (medianSamples (uniformImage 5 5 ⟨9, 9, 9⟩).pixels 5 5 2 2 (kernel_offset 1)).length = 25 ∧
    applyNoiseReductionChecked (uniformImage 5 5 ⟨9, 9, 9⟩) 1 =
      Except.error NoiseError.bufferOverflow ∧
    applyNoiseReductionChecked (uniformImage 4 4 ⟨7, 8, 9⟩) 1 =
      Except.ok (uniformImage 4 4 ⟨7, 8, 9⟩) := by
  refine ⟨by decide, by decide, by decide, ?_⟩
  decide

/-! ## Claim C9 — flip is an involution -/

/-- C9: flipping twice restores every (valid) grid, a single flip moves
pixel `(y, width-1-x)` to `(y,x)` in every row, and flip changes neither
dimension. -/
theorem applyFlip_characterization (img : ImageDetails) (hv : validImage img) :
    applyFlip (applyFlip img) = img ∧
    (∀ y x, y < img.height → x < img.width →
      getPixel (applyFlip img) y x = getPixel img y (img.width - 1 - x)) ∧
    (applyFlip img).width = img.width ∧ (applyFlip img).height = img.height := by
  have hpt : ∀ y x, y < img.height → x < img.width →
      getPixel (applyFlip img) y x = getPixel img y (img.width - 1 - x) := by
    intro y x hy hx
    unfold applyFlip
    exact getPixel_mk_build _ _ _ _ _ y x hy hx
  refine ⟨?_, hpt, rfl, rfl⟩
  have hstep : applyFlip (applyFlip img) =
      { img with pixels := buildPixels img.height img.width fun y x =>
          getPixel (applyFlip img) y (img.width - 1 - x) } := rfl
  rw [hstep]
  apply update_pixels_self
  refine (buildPixels_congr _ _ _ (fun y x => getPixel img y x) ?_).trans
    (build_getPixel_eq img hv)
  intro y x hy hx
  have hx' : img.width - 1 - x < img.width := by omega
  rw [hpt y (img.width - 1 - x) hy hx']
  congr 1
  omega

/-- C9 witness: the flip characterization on the concrete 3×3 image. -/
theorem applyFlip_characterization_witness :
    validImage exImage3 ∧
    (applyFlip (applyFlip exImage3) = exImage3 ∧
     (∀ y x, y < exImage3.height → x < exImage3.width →
       getPixel (applyFlip exImage3) y x = getPixel exImage3 y (exImage3.width - 1 - x)) ∧
     (applyFlip exImage3).width = exImage3.width ∧
     (applyFlip exImage3).height = exImage3.height) :=
  ⟨by decide, applyFlip_characterization exImage3 (by decide)⟩

/-! ## Claim C10 — filters preserve the grid's dimensions -/

/-- C10: grayscale, sepia, flip, Gaussian blur, sharpen, edge detection
and noise reduction all keep the stated width/height and write a pixel
array of exactly `height` rows of `width` columns; only `changeImageSize`
(the ascii-art resize) replaces the dimensions. -/
theorem filters_preserve_dimensions (img : ImageDetails) (s : Nat) :
    sameDims (applyGrayscale img) img.width img.height ∧
    sameDims (applySepia img s) img.width img.height ∧
    sameDims (applyFlip img) img.width img.height ∧
    sameDims (applyGaussianBlur img) img.width img.height ∧
    sameDims (applySharpen img s) img.width img.height ∧
    sameDims (applyEdgeDetection img) img.width img.height ∧
    sameDims (applyNoiseReduction img s) img.width img.height := by
  refine ⟨?_, ?_, ?_, ?_, ?_, ?_, ?_⟩ <;>
    exact ⟨rfl, rfl, length_buildPixels _ _ _, row_length_buildPixels _ _ _⟩

end FilterProg
